import Mathlib

/-!
Verification development for the per-session SSE event bus and the
session-scoped execution context of the QA-assistant chat server
(src/server.py).  The mutable module state
`session_event_queues : dict[SessionId, list[asyncio.Queue[Event]]]`
is embedded as an association list with unique keys, queues are embedded
as explicit lists of events carried inside each listener record, and
`asyncio.Queue.put_nowait` failure (queue closed) is embedded as a
`broken` flag on the listener: `put_nowait` fails exactly when the flag
is set.  All operations are translated line by line from the source.
-/

set_option maxRecDepth 4000

/-- JSON values, the payload type of events (`Dict[str, Any]` payloads are
`JValue.obj`).  Mirrors what `json.dumps` can serialize in this code base. -/
inductive JValue where
  | null : JValue
  | bool : Bool → JValue
  | num : Int → JValue
  | str : String → JValue
  | arr : List JValue → JValue
  | obj : List (String × JValue) → JValue


/-- One hex digit, lower case, as `json.dumps` prints in \u escapes. -/
def hexDigit (n : Nat) : String :=
  String.singleton (if n < 10 then Char.ofNat (48 + n) else Char.ofNat (87 + n))

/-- Escape of a single character inside a JSON string literal, following
`json.dumps(..., ensure_ascii=False)`: the two mandatory escapes, the five
short control escapes, \u00XX for the remaining control characters, and
every other character (non-ASCII included) written through unescaped. -/
def escapeChar (c : Char) : String :=
  if c = Char.ofNat 34 then "\\\""
  else if c = Char.ofNat 92 then "\\\\"
  else if c = Char.ofNat 10 then "\\n"
  else if c = Char.ofNat 13 then "\\r"
  else if c = Char.ofNat 9 then "\\t"
  else if c = Char.ofNat 8 then "\\b"
  else if c = Char.ofNat 12 then "\\f"
  else if c.toNat < 32 then "\\u00" ++ hexDigit (c.toNat / 16) ++ hexDigit (c.toNat % 16)
  else String.singleton c

/-- A JSON string literal as `json.dumps(..., ensure_ascii=False)` prints it. -/
def encodeJString (s : String) : String :=
  "\"" ++ String.join (s.toList.map escapeChar) ++ "\""

mutual

/-- Serialization of a JSON value following `json.dumps` with its default
separators (", " between items, ": " after keys) and `ensure_ascii=False`. -/
def jsonDumps : JValue → String
  | JValue.null => "null"
  | JValue.bool true => "true"
  | JValue.bool false => "false"
  | JValue.num n => toString n
  | JValue.str s => encodeJString s
  | JValue.arr xs => "[" ++ String.intercalate ", " (jsonDumpsList xs) ++ "]"
  | JValue.obj kvs => "\x7b" ++ String.intercalate ", " (jsonDumpsKvs kvs) ++ "\x7d"

/-- Serializations of the elements of a JSON array. -/
def jsonDumpsList : List JValue → List String
  | [] => []
  | x :: xs => jsonDumps x :: jsonDumpsList xs

/-- Serializations of the key/value pairs of a JSON object. -/
def jsonDumpsKvs : List (String × JValue) → List String
  | [] => []
  | (k, v) :: kvs => (encodeJString k ++ ": " ++ jsonDumps v) :: jsonDumpsKvs kvs

end

/-- SessionId, an opaque string (src/server.py line 37). -/
abbrev SessionId := String

/-- An event as built by `publish_event`:
`event = \x7b"type": event_type, "data": payload\x7d` (line 70). -/
structure Event where
  type : String
  data : JValue


/-- One listener: one `asyncio.Queue[Event]` registered for a session.
`lid` is the identity of the Python queue object, `queue` its current
contents (FIFO, oldest first), and `broken` whether `put_nowait` raises
on it (closed queue). -/
structure Listener where
  lid : Nat
  queue : List Event
  broken : Bool


/-- The registry mapping type of `session_event_queues` (line 41). -/
abbrev RegMap := List (SessionId × List Listener)

/-- Dictionary lookup `m.get(s)` on the association list. -/
def getSession : RegMap → SessionId → Option (List Listener)
  | [], _ => none
  | p :: rest, s => if p.1 = s then some p.2 else getSession rest s

/-- Replace the value at every entry whose key is `s` (unique in any
reachable state) by `v`. -/
def replaceSession : RegMap → SessionId → List Listener → RegMap
  | [], _, _ => []
  | p :: rest, s, v => (if p.1 = s then (s, v) else p) :: replaceSession rest s v

/-- Dictionary assignment `m[s] = v`: replace in place when the key is
present, append a new entry otherwise. -/
def setSession (m : RegMap) (s : SessionId) (v : List Listener) : RegMap :=
  if (getSession m s).isSome then replaceSession m s v else m ++ [(s, v)]

/-- Dictionary deletion `del m[s]`. -/
def delSession : RegMap → SessionId → RegMap
  | [], _ => []
  | p :: rest, s => if p.1 = s then delSession rest s else p :: delSession rest s

/-- The whole mutable server state relevant to the event bus: the
`session_event_queues` dict plus a counter supplying the identity of the
next queue object `asyncio.Queue()` creates. -/
structure ServerState where
  session_event_queues : RegMap
  nextId : Nat


/-- The listeners currently registered for `s`
(`session_event_queues.get(s, [])`). -/
def listenersOf (st : ServerState) (s : SessionId) : List Listener :=
  (getSession st.session_event_queues s).getD []

/-- `register_session_listener` (src/server.py lines 48-51): create a fresh
queue, `setdefault(session_id, []).append(queue)`, return the queue. -/
def register_session_listener (st : ServerState) (session_id : SessionId) :
    ServerState × Nat :=
  let queue : Listener := { lid := st.nextId, queue := [], broken := false }
  let cur := (getSession st.session_event_queues session_id).getD []
  ({ session_event_queues :=
       setSession st.session_event_queues session_id (cur ++ [queue]),
     nextId := st.nextId + 1 }, st.nextId)

/-- `listeners.remove(queue)` with the `ValueError` swallowed (lines 58-61):
drop the first listener whose identity is `lid`, no change when absent. -/
def removeFirstLid : List Listener → Nat → List Listener
  | [], _ => []
  | l :: rest, lid => if l.lid = lid then rest else l :: removeFirstLid rest lid

/-- `unregister_session_listener` (src/server.py lines 54-63). -/
def unregister_session_listener (st : ServerState) (session_id : SessionId)
    (lid : Nat) : ServerState :=
  match getSession st.session_event_queues session_id with
  | none => st
  | some listeners =>
    if listeners.isEmpty then st
    else
      let listeners' := removeFirstLid listeners lid
      if listeners'.isEmpty then
        { st with session_event_queues :=
            delSession st.session_event_queues session_id }
      else
        { st with session_event_queues :=
            setSession st.session_event_queues session_id listeners' }

/-- `queue.put_nowait(event)`: appends when the queue is usable, fails
(raises in the source) when it is broken. -/
def put_nowait (l : Listener) (e : Event) : Option Listener :=
  if l.broken then none else some { l with queue := l.queue ++ [e] }

/-- Append `e` to the queue of the first listener whose identity is `lid`
(the in-place effect of a successful `put_nowait` on the live list). -/
def putToLid : List Listener → Nat → Event → List Listener
  | [], _, _ => []
  | l :: rest, lid, e =>
    if l.lid = lid then { l with queue := l.queue ++ [e] } :: rest
    else l :: putToLid rest lid e

/-- The loop `for q in list(listeners)` of `publish_event` (lines 72-80):
`live` is the list object in the dict (mutated in place), `snapshot` the
copy taken before iterating.  A failing `put_nowait` removes that queue
from the live list; a successful one appends the event to that queue. -/
def publishLoop (live : List Listener) (snapshot : List Listener) (e : Event) :
    List Listener :=
  match snapshot with
  | [] => live
  | q :: rest =>
    match put_nowait q e with
    | none => publishLoop (removeFirstLid live q.lid) rest e
    | some _ => publishLoop (putToLid live q.lid e) rest e

/-- `publish_event` (src/server.py lines 66-80).  `if not session_id` is
Python truthiness: `None` and the empty string are both no-ops.  When the
session is absent, `get(session_id, [])` yields a fresh list whose
mutations never reach the dict, so the state is returned unchanged. -/
def publish_event (st : ServerState) (session_id : Option SessionId)
    (event_type : String) (payload : JValue) : ServerState :=
  match session_id with
  | none => st
  | some s =>
    if s = "" then st
    else
      match getSession st.session_event_queues s with
      | none => st
      | some listeners =>
        let event : Event := { type := event_type, data := payload }
        let listeners' := publishLoop listeners listeners event
        { st with session_event_queues :=
            setSession st.session_event_queues s listeners' }

/-- `_format_sse` (src/server.py lines 83-84). -/
def format_sse (event_type : String) (data : JValue) : String :=
  "event: " ++ event_type ++ "\n" ++ "data: " ++ jsonDumps data ++ "\n\n"

/-- The empty registry state the module starts with. -/
def initialState : ServerState := { session_event_queues := [], nextId := 0 }

/-- The state a chat request sees: the shared event-bus state plus the value
of the `current_session_id` context variable in this request's context
(src/server.py lines 43-45). -/
structure ChatState where
  server : ServerState
  ctx : Option SessionId

/-- The observable effect of `Runner.run(helper, req.message, session=session)`
together with the tool calls it triggers: given the ambient session id the
tools will read and the bus state at call time, it returns the bus state at
return or raise time, and either the final output (`final_output`, possibly
`None`) or the exception it raised.  Exceptions carry the mutations already
performed: the returned state is kept on both outcomes. -/
abbrev AgentRunner (E : Type) :=
  Option SessionId → String → ServerState → ServerState × Except E (Option String)

/-- The `chat` endpoint handler (src/server.py lines 243-274), with
`session.close()` and the tracing span elided as external collaborators:
publish `typing_start`; `token = current_session_id.set(req.sessionId)`;
run the agent; in the `finally` block `current_session_id.reset(token)`;
on normal completion publish `typing_end` and `final` and return the text,
on an exception let it propagate. -/
def chat {E : Type} (runner : AgentRunner E) (st : ChatState)
    (sessionId message : String) : ChatState × Except E String :=
  let server1 := publish_event st.server (some sessionId) "typing_start"
    (JValue.obj [])
  let token := st.ctx
  let run := runner (some sessionId) message server1
  match run.2 with
  | Except.error e => ({ server := run.1, ctx := token }, Except.error e)
  | Except.ok output =>
    let text := output.getD ""
    let server3 := publish_event run.1 (some sessionId) "typing_end"
      (JValue.obj [])
    let server4 := publish_event server3 (some sessionId) "final"
      (JValue.obj [("assistantMessage", JValue.str text)])
    ({ server := server4, ctx := token }, Except.ok text)

/-- One operation on the event bus, for reasoning about operation traces. -/
inductive Op where
  | register : SessionId → Op
  | unregister : SessionId → Nat → Op
  | publish : Option SessionId → String → JValue → Op

/-- Apply one operation to the bus state (the returned queue of a register
is the state's `nextId` at that moment). -/
def applyOp (st : ServerState) : Op → ServerState
  | Op.register s => (register_session_listener st s).1
  | Op.unregister s lid => unregister_session_listener st s lid
  | Op.publish s t p => publish_event st s t p

/-- Run a list of operations left to right. -/
def runOps (st : ServerState) : List Op → ServerState
  | [] => st
  | op :: ops => runOps (applyOp st op) ops

/-- The events that the publishes to session `s` in a trace construct, in
order (the session id is assumed non-empty, so truthiness never drops one). -/
def eventsFor (s : SessionId) : List Op → List Event
  | [] => []
  | Op.publish (some s') t p :: ops =>
    if s' = s then { type := t, data := p } :: eventsFor s ops
    else eventsFor s ops
  | _ :: ops => eventsFor s ops

/-- The listener of identity `lid` currently registered for `s`, if any. -/
def findListener (st : ServerState) (s : SessionId) (lid : Nat) :
    Option Listener :=
  match getSession st.session_event_queues s with
  | none => none
  | some ls => ls.find? (fun l => l.lid = lid)

/-- One simulated chat request running as a cooperative task.  `ctx` is this
task's binding of `current_session_id`: each asyncio task runs in its own
copy of the `contextvars` context, so a `ContextVar` get or set performed
inside one task never touches another task's binding.  `phase` 0 is before
the handler sets the variable, 1 is during agent execution (each unit of
`remaining` is one tool invocation, with a suspension point before it),
2 is after the `finally` block reset the variable.  `reads` records the
value every tool invocation observed via `current_session_id.get()`. -/
structure TaskState where
  sid : String
  ctx : Option String
  token : Option String
  phase : Nat
  remaining : Nat
  reads : List (Option String)

/-- A freshly spawned chat-request task for session `sid` whose agent run
will invoke `tools` tools; the context starts unbound (`default=None`). -/
def mkTask (sid : String) (tools : Nat) : TaskState :=
  { sid := sid, ctx := none, token := none, phase := 0, remaining := tools,
    reads := [] }

/-- One cooperative step of a chat-request task, translated from the `chat`
handler and the tools (src/server.py lines 160-165 and 243-274):
phase 0 runs `token = current_session_id.set(req.sessionId)`; phase 1
either performs the next tool invocation, which reads
`current_session_id.get()`, or, when the agent is done, runs
`current_session_id.reset(token)` and finishes. -/
def stepTask (t : TaskState) : TaskState :=
  match t.phase with
  | 0 => { t with token := t.ctx, ctx := some t.sid, phase := 1 }
  | 1 =>
    match t.remaining with
    | Nat.succ k => { t with reads := t.reads ++ [t.ctx], remaining := k }
    | 0 => { t with ctx := t.token, phase := 2 }
  | _ => t

/-- Run two concurrently scheduled chat-request tasks under an arbitrary
cooperative schedule: `true` steps the first task, `false` the second.
The tasks share nothing here because `contextvars` gives each task its own
context copy; this is the state the two requests race on. -/
def runSchedule : TaskState × TaskState → List Bool → TaskState × TaskState
  | p, [] => p
  | p, b :: rest =>
    runSchedule (if b then (stepTask p.1, p.2) else (p.1, stepTask p.2)) rest

/-- The registry invariant claimed by the spec: every session id present in
the mapping carries a non-empty listener collection. -/
@[reducible] def registryInvariant (st : ServerState) : Prop :=
  ∀ p ∈ st.session_event_queues, p.2.isEmpty = false

/-- The session keys of the registry are pairwise distinct (always true of
a Python dict; an invariant of the association-list embedding). -/
@[reducible] def keysNodup (st : ServerState) : Prop :=
  (st.session_event_queues.map Prod.fst).Nodup

/-- Well-formedness of the state relative to one session, as produced by
the real operations: distinct queue identities within the session and all
identities below the fresh-identity counter. -/
@[reducible] def traceWF (st : ServerState) (s : SessionId) : Prop :=
  keysNodup st ∧ ((listenersOf st s).map Listener.lid).Nodup ∧
    ∀ l ∈ listenersOf st s, l.lid < st.nextId

/-- Modelled from the wording of the spec (section 6, event wire format):
one SSE message is exactly an `event:` line, a `data:` line with the JSON
serialization, and a blank line. -/
def sseWireFormat (event_type : String) (json : String) : String :=
  "event: " ++ event_type ++ "\n" ++ "data: " ++ json ++ "\n\n"

/-- A state with one session whose only listener has a closed queue; used
to exhibit the behaviour of the drop branch of `publish_event`. -/
def brokenOnlyState : ServerState :=
  { session_event_queues := [("s", [{ lid := 0, queue := [], broken := true }])],
    nextId := 1 }

/-- The event-queue contents of every listener of every session, with the
registry structure (which session ids are present, which queue identities
are registered, in what order) forgotten . -/
def queueOf (st : ServerState) (s : SessionId) (lid : Nat) : Option (List Event) :=
  (findListener st s lid).map Listener.queue

theorem getSession_replace_isSome (s : SessionId) (v : List Listener) :
    ∀ (m : RegMap), (getSession m s).isSome →
      getSession (replaceSession m s v) s = some v := by
  intro m
  induction m with
  | nil => intro h; simp [getSession] at h
  | cons p rest ih =>
    intro h
    by_cases hp : p.1 = s
    · simp [replaceSession, getSession, hp]
    · simp only [getSession, hp, if_false] at h
      simp [replaceSession, getSession, hp, ih h]

theorem getSession_append_none (s : SessionId) (v : List Listener) :
    ∀ (m : RegMap), getSession m s = none →
      getSession (m ++ [(s, v)]) s = some v := by
  intro m
  induction m with
  | nil => intro _; simp [getSession]
  | cons p rest ih =>
    intro h
    by_cases hp : p.1 = s
    · simp [getSession, hp] at h
    · simp only [getSession, hp, if_false] at h
      simp [getSession, hp, ih h]

theorem getSession_setSession_self (m : RegMap) (s : SessionId)
    (v : List Listener) : getSession (setSession m s v) s = some v := by
  by_cases h : (getSession m s).isSome
  · simp [setSession, h, getSession_replace_isSome s v m h]
  · have h0 : getSession m s = none := by
      cases hg : getSession m s
      · rfl
      · simp [hg] at h
    simp [setSession, h0, getSession_append_none s v m h0]

theorem getSession_replace_ne (s s' : SessionId) (v : List Listener)
    (h : s' ≠ s) : ∀ (m : RegMap),
      getSession (replaceSession m s v) s' = getSession m s' := by
  intro m
  induction m with
  | nil => simp [replaceSession]
  | cons p rest ih =>
    by_cases hp : p.1 = s
    · have : s ≠ s' := fun hss => h hss.symm
      simp [replaceSession, getSession, hp, this, ih]
    · by_cases hp' : p.1 = s'
      · simp [replaceSession, getSession, hp, hp', h]
      · simp [replaceSession, getSession, hp, hp', ih]

theorem getSession_append_ne (s s' : SessionId) (v : List Listener)
    (h : s' ≠ s) : ∀ (m : RegMap),
      getSession (m ++ [(s, v)]) s' = getSession m s' := by
  intro m
  induction m with
  | nil => simp [getSession, Ne.symm h]
  | cons p rest ih =>
    by_cases hp : p.1 = s'
    · simp [getSession, hp]
    · simp [getSession, hp, ih]

theorem getSession_setSession_ne (m : RegMap) (s s' : SessionId)
    (v : List Listener) (h : s' ≠ s) :
    getSession (setSession m s v) s' = getSession m s' := by
  by_cases hsome : (getSession m s).isSome
  · simp [setSession, hsome, getSession_replace_ne s s' v h m]
  · simp [setSession, hsome, getSession_append_ne s s' v h m]

theorem getSession_delSession_self (s : SessionId) :
    ∀ (m : RegMap), getSession (delSession m s) s = none := by
  intro m
  induction m with
  | nil => simp [delSession, getSession]
  | cons p rest ih =>
    by_cases hp : p.1 = s
    · simp [delSession, hp, ih]
    · simp [delSession, getSession, hp, ih]

theorem getSession_delSession_ne (s s' : SessionId) (h : s' ≠ s) :
    ∀ (m : RegMap), getSession (delSession m s) s' = getSession m s' := by
  intro m
  induction m with
  | nil => simp [delSession]
  | cons p rest ih =>
    by_cases hp : p.1 = s
    · have hp' : p.1 ≠ s' := by rw [hp]; exact fun hss => h hss.symm
      simp [delSession, getSession, hp, hp', ih, Ne.symm h]
    · by_cases hp' : p.1 = s'
      · simp [delSession, getSession, hp, hp', h]
      · simp [delSession, getSession, hp, hp', ih]

theorem mem_replaceSession (s : SessionId) (v : List Listener)
    (p' : SessionId × List Listener) : ∀ (m : RegMap),
      p' ∈ replaceSession m s v → p' ∈ m ∨ p' = (s, v) := by
  intro m
  induction m with
  | nil => intro h; simp [replaceSession] at h
  | cons p rest ih =>
    intro h
    by_cases hp : p.1 = s
    · simp only [replaceSession, hp, if_pos, List.mem_cons] at h
      rcases h with h | h
      · exact Or.inr h
      · rcases ih h with h' | h'
        · exact Or.inl (List.mem_cons_of_mem _ h')
        · exact Or.inr h'
    · simp only [replaceSession, hp, if_neg, List.mem_cons, not_false_iff] at h
      rcases h with h | h
      · exact Or.inl (h ▸ List.mem_cons_self _ _)
      · rcases ih h with h' | h'
        · exact Or.inl (List.mem_cons_of_mem _ h')
        · exact Or.inr h'

theorem mem_setSession (m : RegMap) (s : SessionId) (v : List Listener)
    (p' : SessionId × List Listener) (h : p' ∈ setSession m s v) :
    p' ∈ m ∨ p' = (s, v) := by
  by_cases hsome : (getSession m s).isSome
  · simp only [setSession, hsome, if_pos] at h
    exact mem_replaceSession s v p' m h
  · simp [setSession, hsome] at h
    exact h

theorem delSession_sublist (s : SessionId) :
    ∀ (m : RegMap), List.Sublist (delSession m s) m := by
  intro m
  induction m with
  | nil => simp [delSession]
  | cons p rest ih =>
    by_cases hp : p.1 = s
    · simp only [delSession, hp, if_pos]
      exact List.Sublist.cons p ih
    · simp only [delSession, hp, if_neg, not_false_iff]
      exact List.Sublist.cons₂ p ih

theorem removeFirstLid_sublist (lid : Nat) :
    ∀ (ls : List Listener), List.Sublist (removeFirstLid ls lid) ls := by
  intro ls
  induction ls with
  | nil => simp [removeFirstLid]
  | cons l rest ih =>
    by_cases hl : l.lid = lid
    · simp only [removeFirstLid, hl, if_pos]
      exact List.Sublist.cons l (List.Sublist.refl rest)
    · simp only [removeFirstLid, hl, if_neg, not_false_iff]
      exact List.Sublist.cons₂ l ih

theorem removeFirstLid_of_notin (lid : Nat) :
    ∀ (ls : List Listener), lid ∉ ls.map Listener.lid →
      removeFirstLid ls lid = ls := by
  intro ls
  induction ls with
  | nil => intro _; rfl
  | cons l rest ih =>
    intro h
    simp only [List.map_cons, List.mem_cons, not_or] at h
    have hl : l.lid ≠ lid := fun hll => h.1 hll.symm
    simp [removeFirstLid, hl, ih h.2]

theorem notin_removeFirstLid (lid : Nat) :
    ∀ (ls : List Listener), (ls.map Listener.lid).Nodup →
      lid ∉ (removeFirstLid ls lid).map Listener.lid := by
  intro ls
  induction ls with
  | nil => intro _; simp [removeFirstLid]
  | cons l rest ih =>
    intro h
    simp only [List.map_cons, List.nodup_cons] at h
    by_cases hl : l.lid = lid
    · simp only [removeFirstLid, hl, if_pos]
      rw [← hl]
      exact h.1
    · simp only [removeFirstLid, hl, if_neg, not_false_iff, List.map_cons,
        List.mem_cons, not_or]
      exact ⟨fun hll => hl hll.symm, ih h.2⟩

theorem map_fst_replaceSession (s : SessionId) (v : List Listener) :
    ∀ (m : RegMap), (replaceSession m s v).map Prod.fst = m.map Prod.fst := by
  intro m
  induction m with
  | nil => rfl
  | cons p rest ih =>
    by_cases hp : p.1 = s
    · simp [replaceSession, hp, ih]
    · simp [replaceSession, hp, ih]

theorem getSession_none_iff (s : SessionId) :
    ∀ (m : RegMap), getSession m s = none ↔ s ∉ m.map Prod.fst := by
  intro m
  induction m with
  | nil => simp [getSession]
  | cons p rest ih =>
    by_cases hp : p.1 = s
    · simp [getSession, hp]
    · simp only [getSession, hp, if_neg, not_false_iff, List.map_cons,
        List.mem_cons, not_or]
      constructor
      · intro h
        exact ⟨fun hss => hp hss.symm, (ih.mp h)⟩
      · intro h
        exact ih.mpr h.2

theorem keysNodup_setSession (m : RegMap) (s : SessionId) (v : List Listener)
    (h : (m.map Prod.fst).Nodup) : ((setSession m s v).map Prod.fst).Nodup := by
  by_cases hsome : (getSession m s).isSome
  · simp only [setSession, hsome, if_pos, map_fst_replaceSession]
    exact h
  · have hnone : getSession m s = none := by
      cases hg : getSession m s
      · rfl
      · simp [hg] at hsome
    have hnotin : s ∉ m.map Prod.fst := (getSession_none_iff s m).mp hnone
    rw [setSession, if_neg hsome, List.map_append]
    rw [List.nodup_append]
    refine ⟨h, by simp, fun a hb hc => ?_⟩
    simp only [List.map_cons, List.map_nil, List.mem_singleton] at hc
    subst hc
    exact hnotin hb

theorem replaceSession_of_notin (s : SessionId) (v : List Listener) :
    ∀ (m : RegMap), s ∉ m.map Prod.fst → replaceSession m s v = m := by
  intro m
  induction m with
  | nil => intro _; rfl
  | cons p rest ih =>
    intro h
    simp only [List.map_cons, List.mem_cons, not_or] at h
    have hp : p.1 ≠ s := fun hps => h.1 hps.symm
    simp [replaceSession, hp, ih h.2]

theorem replaceSession_getSession_eq (s : SessionId) :
    ∀ (m : RegMap) (v : List Listener), (m.map Prod.fst).Nodup →
      getSession m s = some v → replaceSession m s v = m := by
  intro m
  induction m with
  | nil => intro v _ hget; simp [getSession] at hget
  | cons p rest ih =>
    intro v hkeys hget
    simp only [List.map_cons, List.nodup_cons] at hkeys
    by_cases hp : p.1 = s
    · simp only [getSession, hp, if_pos, Option.some_inj] at hget
      have hnotin : s ∉ rest.map Prod.fst := hp ▸ hkeys.1
      simp only [replaceSession, hp, if_pos,
        replaceSession_of_notin s v rest hnotin]
      cases p with
      | mk a b =>
        simp only at hp hget
        rw [hp, hget]
    · simp only [getSession, hp, if_neg, not_false_iff] at hget
      simp [replaceSession, hp, ih v hkeys.2 hget]

theorem setSession_self_eq (m : RegMap) (s : SessionId) (v : List Listener)
    (hkeys : (m.map Prod.fst).Nodup) (hget : getSession m s = some v) :
    setSession m s v = m := by
  have hsome : (getSession m s).isSome := by simp [hget]
  rw [setSession, if_pos hsome]
  exact replaceSession_getSession_eq s m v hkeys hget

theorem removeFirstLid_append (q : Listener) (rest : List Listener) :
    ∀ (A : List Listener), q.lid ∉ A.map Listener.lid →
      removeFirstLid (A ++ q :: rest) q.lid = A ++ rest := by
  intro A
  induction A with
  | nil => intro _; simp [removeFirstLid]
  | cons a A' ih =>
    intro h
    simp only [List.map_cons, List.mem_cons, not_or] at h
    have ha : a.lid ≠ q.lid := fun hal => h.1 hal.symm
    simp [removeFirstLid, ha, ih h.2]

theorem putToLid_append (q : Listener) (rest : List Listener) (e : Event) :
    ∀ (A : List Listener), q.lid ∉ A.map Listener.lid →
      putToLid (A ++ q :: rest) q.lid e =
        A ++ ({ q with queue := q.queue ++ [e] } :: rest) := by
  intro A
  induction A with
  | nil => intro _; simp [putToLid]
  | cons a A' ih =>
    intro h
    simp only [List.map_cons, List.mem_cons, not_or] at h
    have ha : a.lid ≠ q.lid := fun hal => h.1 hal.symm
    simp [putToLid, ha, ih h.2]

theorem publishLoop_append (e : Event) :
    ∀ (suf A : List Listener),
      (∀ q ∈ suf, q.lid ∉ A.map Listener.lid) →
      (suf.map Listener.lid).Nodup →
      publishLoop (A ++ suf) suf e =
        A ++ (suf.filter (fun l => !l.broken)).map
          (fun l => { l with queue := l.queue ++ [e] }) := by
  intro suf
  induction suf with
  | nil => intro A _ _; simp [publishLoop]
  | cons q rest ih =>
    intro A hA hnodup
    simp only [List.map_cons, List.nodup_cons] at hnodup
    have hqA : q.lid ∉ A.map Listener.lid := hA q (List.mem_cons_self q rest)
    by_cases hb : q.broken
    · have hpn : put_nowait q e = none := by simp [put_nowait, hb]
      simp only [publishLoop, hpn]
      rw [removeFirstLid_append q rest A hqA]
      rw [ih A (fun r hr => hA r (List.mem_cons_of_mem q hr)) hnodup.2]
      simp [List.filter, hb]
    · have hpn : put_nowait q e = some { q with queue := q.queue ++ [e] } := by
        simp [put_nowait, hb]
      simp only [publishLoop, hpn]
      rw [putToLid_append q rest e A hqA]
      have hrw : A ++ ({ q with queue := q.queue ++ [e] } :: rest) =
          (A ++ [{ q with queue := q.queue ++ [e] }]) ++ rest := by
        simp
      have hmemA : ∀ r ∈ rest,
          r.lid ∉ (A ++ [{ q with queue := q.queue ++ [e] }]).map Listener.lid := by
        intro r hr
        rw [List.map_append, List.mem_append]
        push_neg
        constructor
        · exact hA r (List.mem_cons_of_mem q hr)
        · simp only [List.map_cons, List.map_nil, List.mem_singleton]
          intro hrq
          have hq : r.lid ∈ List.map Listener.lid rest :=
            List.mem_map_of_mem Listener.lid hr
          rw [hrq] at hq
          exact hnodup.1 hq
      rw [hrw]
      calc publishLoop ((A ++ [{ q with queue := q.queue ++ [e] }]) ++ rest) rest e
          = (A ++ [{ q with queue := q.queue ++ [e] }]) ++
            (rest.filter (fun l => !l.broken)).map
              (fun l => { l with queue := l.queue ++ [e] }) :=
            ih (A ++ [{ q with queue := q.queue ++ [e] }]) hmemA hnodup.2
        _ = A ++ ((q :: rest).filter (fun l => !l.broken)).map
              (fun l => { l with queue := l.queue ++ [e] }) := by
            simp [List.filter, hb]

theorem publishLoop_spec (ls : List Listener) (e : Event)
    (h : (ls.map Listener.lid).Nodup) :
    publishLoop ls ls e =
      (ls.filter (fun l => !l.broken)).map
        (fun l => { l with queue := l.queue ++ [e] }) := by
  have := publishLoop_append e ls [] (by simp) h
  simpa using this

theorem publish_event_absent (st : ServerState) (s : SessionId)
    (event_type : String) (payload : JValue)
    (h : getSession st.session_event_queues s = none) :
    publish_event st (some s) event_type payload = st := by
  by_cases hs : s = ""
  · simp [publish_event, hs]
  · simp [publish_event, hs, h]

/-- C8: for every event type string and JSON payload, the serialized SSE
message is exactly the `event:` line, the `data:` line carrying the JSON
encoding (non-ASCII characters unescaped, per `ensure_ascii=False`), and a
terminating blank line. -/
theorem c8_sse_wire_format (event_type : String) (data : JValue) :
    format_sse event_type data = sseWireFormat event_type (jsonDumps data) := rfl

/-- C9: publishing with an absent (`None`) or empty-string session id is a
silent no-op: nothing is enqueued anywhere and the whole server state is
returned unchanged. -/
theorem c9_publish_no_session_noop (st : ServerState)
    (event_type : String) (payload : JValue) :
    publish_event st none event_type payload = st ∧
    publish_event st (some "") event_type payload = st := by
  constructor
  · rfl
  · simp [publish_event]

/-- C4: when a session has exactly one listener, unregistering that listener
removes the session from the registry entirely, and a subsequent publish to
that session returns the state unchanged (no entry is recreated). -/
theorem c4_cleanup_on_empty (st : ServerState) (s : SessionId) (l : Listener)
    (event_type : String) (payload : JValue)
    (h : getSession st.session_event_queues s = some [l]) :
    getSession
        (unregister_session_listener st s l.lid).session_event_queues s = none ∧
    publish_event (unregister_session_listener st s l.lid) (some s)
        event_type payload = unregister_session_listener st s l.lid := by
  have hunreg : unregister_session_listener st s l.lid =
      { st with session_event_queues :=
          delSession st.session_event_queues s } := by
    simp [unregister_session_listener, h, removeFirstLid]
  constructor
  · rw [hunreg]
    exact getSession_delSession_self s st.session_event_queues
  · rw [hunreg]
    exact publish_event_absent _ s event_type payload
      (getSession_delSession_self s st.session_event_queues)

/-- C5: unregistering the same (session, listener) pair twice equals
unregistering it once; the second call is a no-op on the whole state, other
listeners of the session included. -/
theorem c5_unregister_idempotent (st : ServerState) (s : SessionId) (lid : Nat)
    (hkeys : keysNodup st)
    (hlids : ((listenersOf st s).map Listener.lid).Nodup) :
    unregister_session_listener (unregister_session_listener st s lid) s lid =
      unregister_session_listener st s lid := by
  cases hget : getSession st.session_event_queues s with
  | none =>
    have h1 : unregister_session_listener st s lid = st := by
      simp [unregister_session_listener, hget]
    rw [h1, h1]
  | some ls =>
    by_cases hempty : ls.isEmpty
    · have h1 : unregister_session_listener st s lid = st := by
        simp [unregister_session_listener, hget, hempty]
      rw [h1, h1]
    · have hlids' : (ls.map Listener.lid).Nodup := by
        have hls : listenersOf st s = ls := by simp [listenersOf, hget]
        rwa [hls] at hlids
      by_cases hrem : (removeFirstLid ls lid).isEmpty
      · have h1 : unregister_session_listener st s lid =
            { st with session_event_queues :=
                delSession st.session_event_queues s } := by
          simp [unregister_session_listener, hget, hempty, hrem]
        rw [h1]
        simp [unregister_session_listener, getSession_delSession_self]
      · have h1 : unregister_session_listener st s lid =
            { st with session_event_queues :=
                setSession st.session_event_queues s (removeFirstLid ls lid) } := by
          simp [unregister_session_listener, hget, hempty, hrem]
        rw [h1]
        have hget2 : getSession
            (setSession st.session_event_queues s (removeFirstLid ls lid)) s =
            some (removeFirstLid ls lid) := getSession_setSession_self _ _ _
        have hnotin : lid ∉ (removeFirstLid ls lid).map Listener.lid :=
          notin_removeFirstLid lid ls hlids'
        have hrm2 : removeFirstLid (removeFirstLid ls lid) lid =
            removeFirstLid ls lid :=
          removeFirstLid_of_notin lid _ hnotin
        have hkeys2 : ((setSession st.session_event_queues s
            (removeFirstLid ls lid)).map Prod.fst).Nodup :=
          keysNodup_setSession _ _ _ hkeys
        have hset : setSession
            (setSession st.session_event_queues s (removeFirstLid ls lid)) s
            (removeFirstLid ls lid) =
            setSession st.session_event_queues s (removeFirstLid ls lid) :=
          setSession_self_eq _ _ _ hkeys2 hget2
        simp [unregister_session_listener, hget2, hrem, hrm2, hset]

/-- C1: `publish_event` is a total function (it never raises to its caller);
on a session with distinct queue identities it removes exactly the listeners
whose enqueue fails and appends the event to the queue of every other
listener of the snapshot, in order, while every other session's entry and
the identity counter stay untouched. -/
theorem c1_publish_drop_semantics (st : ServerState) (s : SessionId)
    (event_type : String) (payload : JValue)
    (hs : s ≠ "")
    (hlids : ((listenersOf st s).map Listener.lid).Nodup) :
    listenersOf (publish_event st (some s) event_type payload) s =
      ((listenersOf st s).filter (fun l => !l.broken)).map
        (fun l => { l with queue :=
          l.queue ++ [{ type := event_type, data := payload }] }) ∧
    (∀ s', s' ≠ s →
      getSession (publish_event st (some s) event_type payload).session_event_queues s' =
        getSession st.session_event_queues s') ∧
    (publish_event st (some s) event_type payload).nextId = st.nextId := by
  cases hget : getSession st.session_event_queues s with
  | none =>
    have h1 : publish_event st (some s) event_type payload = st :=
      publish_event_absent st s event_type payload hget
    rw [h1]
    simp [listenersOf, hget]
  | some ls =>
    have hls : listenersOf st s = ls := by simp [listenersOf, hget]
    have hlids' : (ls.map Listener.lid).Nodup := by rwa [hls] at hlids
    have h1 : publish_event st (some s) event_type payload =
        { st with session_event_queues := (setSession st.session_event_queues s
            (publishLoop ls ls { type := event_type, data := payload })) } := by
      simp [publish_event, hs, hget]
    rw [h1]
    refine ⟨?_, fun s' hs' => getSession_setSession_ne _ _ _ _ hs', rfl⟩
    have h2 : listenersOf { st with session_event_queues :=
        (setSession st.session_event_queues s
          (publishLoop ls ls { type := event_type, data := payload })) } s =
        publishLoop ls ls { type := event_type, data := payload } := by
      simp [listenersOf, getSession_setSession_self]
    rw [h2, publishLoop_spec ls _ hlids', hls]

/-- C2 (counterexample): starting from a state satisfying the non-empty
invariant whose only session has a single closed-queue listener, one
publish leaves that session id present in the mapping with an empty
collection, so the invariant is not preserved by every operation. -/
theorem c2_counterexample :
    registryInvariant brokenOnlyState ∧
    ¬ registryInvariant
        (publish_event brokenOnlyState (some "s") "typing_start"
          (JValue.obj [])) := by
  have hpub : publish_event brokenOnlyState (some "s") "typing_start"
      (JValue.obj []) =
      { session_event_queues := [("s", [])], nextId := 1 } := by rfl
  constructor
  · intro p hp
    simp only [brokenOnlyState, List.mem_singleton] at hp
    subst hp
    rfl
  · rw [hpub]
    intro hinv
    have := hinv ("s", []) (List.mem_singleton.mpr rfl)
    simp at this

/-- C2 (amended): every session id present in the registry maps to a
non-empty collection, and this is preserved by register and by unregister;
publish preserves it too, except that when every listener of the target
session fails its enqueue the emptied collection stays in the mapping (the
session id is not removed by `publish_event`).  Preservation for publish is
stated under the hypothesis that some listener of the session can still be
enqueued to. -/
theorem c2_amended_invariant (st : ServerState)
    (hinv : registryInvariant st) :
    (∀ s, registryInvariant (register_session_listener st s).1) ∧
    (∀ s lid, registryInvariant (unregister_session_listener st s lid)) ∧
    (∀ s event_type payload,
      (∀ ls, getSession st.session_event_queues s = some ls →
        ((ls.map Listener.lid).Nodup ∧ ∃ l ∈ ls, l.broken = false)) →
      registryInvariant (publish_event st (some s) event_type payload)) := by
  refine ⟨?_, ?_, ?_⟩
  · intro s p hp
    simp only [register_session_listener] at hp
    rcases mem_setSession _ _ _ _ hp with hmem | heq
    · exact hinv p hmem
    · subst heq
      simp
  · intro s lid p hp
    cases hget : getSession st.session_event_queues s with
    | none =>
      rw [unregister_session_listener, hget] at hp
      exact hinv p hp
    | some ls =>
      by_cases hempty : ls.isEmpty
      · simp only [unregister_session_listener, hget, hempty, if_pos] at hp
        exact hinv p hp
      · by_cases hrem : (removeFirstLid ls lid).isEmpty
        · simp only [unregister_session_listener, hget, hempty, hrem,
            Bool.false_eq_true, if_false, if_pos] at hp
          exact hinv p ((delSession_sublist s st.session_event_queues).subset hp)
        · simp only [unregister_session_listener, hget, hempty, hrem,
            Bool.false_eq_true, if_false] at hp
          rcases mem_setSession _ _ _ _ hp with hmem | heq
          · exact hinv p hmem
          · subst heq
            simpa using hrem
  · intro s event_type payload hcond
    by_cases hs : s = ""
    · simp only [publish_event, hs, if_pos]
      exact hinv
    · cases hget : getSession st.session_event_queues s with
      | none =>
        rw [publish_event_absent st s event_type payload hget]
        exact hinv
      | some ls =>
        rcases hcond ls hget with ⟨hnodup, l, hl, hbl⟩
        have h1 : publish_event st (some s) event_type payload =
            { st with session_event_queues := (setSession st.session_event_queues s
                (publishLoop ls ls { type := event_type, data := payload })) } := by
          simp [publish_event, hs, hget]
        rw [h1]
        intro p hp
        rcases mem_setSession _ _ _ _ hp with hmem | heq
        · exact hinv p hmem
        · subst heq
          show (publishLoop ls ls { type := event_type, data := payload }).isEmpty = false
          rw [publishLoop_spec ls _ hnodup]
          have hmemF : l ∈ ls.filter (fun l => !l.broken) :=
            List.mem_filter.mpr ⟨hl, by simp [hbl]⟩
          cases hF : ls.filter (fun l => !l.broken) with
          | nil => rw [hF] at hmemF; cases hmemF
          | cons a as => rfl

/-- C6: the chat handler captures a token for the prior ambient session id,
binds the request's session id for the agent run, and on every exit path
(normal completion or agent exception) restores the ambient value to the
captured prior value; moreover the agent is invoked under the ambient
binding `some sessionId`: the handler's result depends on the runner only
through its behaviour at that binding. -/
theorem c6_ambient_context_restored {E : Type} (runner : AgentRunner E)
    (st : ChatState) (sessionId message : String) :
    (chat runner st sessionId message).1.ctx = st.ctx ∧
    (∀ runner2 : AgentRunner E,
      runner (some sessionId) message = runner2 (some sessionId) message →
      chat runner st sessionId message = chat runner2 st sessionId message) := by
  constructor
  · simp only [chat]
    rcases runner (some sessionId) message
        (publish_event st.server (some sessionId) "typing_start"
          (JValue.obj [])) with ⟨srv, res⟩
    cases res <;> rfl
  · intro runner2 h
    simp only [chat, h]

/-- C10: when agent execution raises, the handler has already published
`typing_start` (the agent runs on the state after that publish), the
exception propagates as the result, the final bus state is exactly the one
the agent left behind (so the handler publishes neither `typing_end` nor
`final` and neither registers nor unregisters any listener), and the
ambient context is restored. -/
theorem c10_agent_failure_semantics {E : Type} (runner : AgentRunner E)
    (st : ChatState) (sessionId message : String) (e : E)
    (herr : (runner (some sessionId) message
        (publish_event st.server (some sessionId) "typing_start"
          (JValue.obj []))).2 = Except.error e) :
    chat runner st sessionId message =
      ({ server := (runner (some sessionId) message
            (publish_event st.server (some sessionId) "typing_start"
              (JValue.obj []))).1,
         ctx := st.ctx }, Except.error e) := by
  simp only [chat]
  rcases hrun : runner (some sessionId) message
      (publish_event st.server (some sessionId) "typing_start"
        (JValue.obj [])) with ⟨srv, res⟩
  rw [hrun] at herr
  simp only at herr
  subst herr
  rfl

theorem stepTask_inv (t : TaskState)
    (h1 : t.phase = 1 → t.ctx = some t.sid)
    (h2 : ∀ v ∈ t.reads, v = some t.sid) :
    (stepTask t).sid = t.sid ∧
    ((stepTask t).phase = 1 → (stepTask t).ctx = some (stepTask t).sid) ∧
    (∀ v ∈ (stepTask t).reads, v = some (stepTask t).sid) := by
  rcases t with ⟨sid, ctx, token, phase, remaining, reads⟩
  simp only at h1 h2
  match phase with
  | 0 =>
    refine ⟨rfl, fun _ => rfl, ?_⟩
    simpa [stepTask] using h2
  | 1 =>
    match remaining with
    | Nat.succ k =>
      refine ⟨rfl, fun _ => h1 rfl, ?_⟩
      intro v hv
      simp only [stepTask, List.mem_append, List.mem_singleton] at hv
      rcases hv with hv | hv
      · exact h2 v hv
      · subst hv
        exact h1 rfl
    | 0 =>
      refine ⟨rfl, ?_, ?_⟩
      · intro hph
        simp [stepTask] at hph
      · simpa [stepTask] using h2
  | Nat.succ (Nat.succ ph) =>
    refine ⟨rfl, ?_, ?_⟩
    · intro hph
      simp [stepTask] at hph
    · simpa [stepTask] using h2

theorem runSchedule_reads :
    ∀ (schedule : List Bool) (p : TaskState × TaskState),
      (p.1.phase = 1 → p.1.ctx = some p.1.sid) →
      (∀ v ∈ p.1.reads, v = some p.1.sid) →
      (p.2.phase = 1 → p.2.ctx = some p.2.sid) →
      (∀ v ∈ p.2.reads, v = some p.2.sid) →
      ((runSchedule p schedule).1.sid = p.1.sid ∧
        (∀ v ∈ (runSchedule p schedule).1.reads, v = some p.1.sid)) ∧
      ((runSchedule p schedule).2.sid = p.2.sid ∧
        (∀ v ∈ (runSchedule p schedule).2.reads, v = some p.2.sid)) := by
  intro schedule
  induction schedule with
  | nil =>
    intro p hA1 hA2 hB1 hB2
    exact ⟨⟨rfl, hA2⟩, ⟨rfl, hB2⟩⟩
  | cons b rest ih =>
    intro p hA1 hA2 hB1 hB2
    cases b with
    | true =>
      obtain ⟨hsid, hctx, hreads⟩ := stepTask_inv p.1 hA1 hA2
      have := ih (stepTask p.1, p.2)
        (by simpa [hsid] using hctx)
        (by simpa [hsid] using hreads) hB1 hB2
      simpa [runSchedule, hsid] using this
    | false =>
      obtain ⟨hsid, hctx, hreads⟩ := stepTask_inv p.2 hB1 hB2
      have := ih (p.1, stepTask p.2) hA1 hA2
        (by simpa [hsid] using hctx)
        (by simpa [hsid] using hreads)
      simpa [runSchedule, hsid] using this

/-- C7: under every cooperative interleaving of two simulated chat requests
(including schedules where the second starts only after the first has
suspended mid-agent-run), each request binds its own session id to the
ambient context and every tool invocation inside a request reads that
request's session id, never the other's. -/
theorem c7_context_isolation (sidA sidB : String) (nA nB : Nat)
    (schedule : List Bool) :
    (∀ v ∈ (runSchedule (mkTask sidA nA, mkTask sidB nB) schedule).1.reads,
      v = some sidA) ∧
    (∀ v ∈ (runSchedule (mkTask sidA nA, mkTask sidB nB) schedule).2.reads,
      v = some sidB) := by
  have h := runSchedule_reads schedule (mkTask sidA nA, mkTask sidB nB)
    (by simp [mkTask]) (by simp [mkTask]) (by simp [mkTask]) (by simp [mkTask])
  exact ⟨h.1.2, h.2.2⟩

theorem find?_append_left (l₂ : List Listener) (p : Listener → Bool)
    (x : Listener) : ∀ (l₁ : List Listener), l₁.find? p = some x →
      (l₁ ++ l₂).find? p = some x := by
  intro l₁
  induction l₁ with
  | nil => intro h; simp [List.find?] at h
  | cons a rest ih =>
    intro h
    by_cases ha : p a
    · rw [List.find?_cons_of_pos _ ha] at h
      simpa [List.find?_cons_of_pos _ ha] using h
    · rw [List.find?_cons_of_neg _ (by simpa using ha)] at h
      simpa [List.find?_cons_of_neg _ (by simpa using ha)] using ih h

theorem find?_removeFirstLid_ne (lid ℓ : Nat) (h : lid ≠ ℓ) :
    ∀ (ls : List Listener),
      (removeFirstLid ls lid).find? (fun l => l.lid = ℓ) =
        ls.find? (fun l => l.lid = ℓ) := by
  intro ls
  induction ls with
  | nil => rfl
  | cons l rest ih =>
    by_cases hl : l.lid = lid
    · have hnot : ¬ (l.lid = ℓ) := by rw [hl]; exact h
      simp only [removeFirstLid, hl, if_pos]
      rw [List.find?_cons_of_neg _ (by simpa using hnot)]
    · simp only [removeFirstLid, hl, if_neg, not_false_iff]
      by_cases hℓ : l.lid = ℓ
      · rw [List.find?_cons_of_pos _ (by simpa using hℓ),
          List.find?_cons_of_pos _ (by simpa using hℓ)]
      · rw [List.find?_cons_of_neg _ (by simpa using hℓ),
          List.find?_cons_of_neg _ (by simpa using hℓ)]
        exact ih

theorem find?_publish (ℓ : Nat) (q : List Event) (e : Event) :
    ∀ (ls : List Listener),
      ls.find? (fun l => l.lid = ℓ) =
        some { lid := ℓ, queue := q, broken := false } →
      ((ls.filter (fun l => !l.broken)).map
          (fun l => { l with queue := l.queue ++ [e] })).find?
          (fun l => l.lid = ℓ) =
        some { lid := ℓ, queue := q ++ [e], broken := false } := by
  intro ls
  induction ls with
  | nil => intro h; simp [List.find?] at h
  | cons l rest ih =>
    intro h
    by_cases hℓ : l.lid = ℓ
    · rw [List.find?_cons_of_pos _ (by simpa using hℓ)] at h
      have hl : l = { lid := ℓ, queue := q, broken := false } :=
        Option.some_inj.mp h
      subst hl
      rw [List.filter_cons_of_pos (by rfl), List.map_cons,
        List.find?_cons_of_pos _ (by simp)]
    · rw [List.find?_cons_of_neg _ (by simpa using hℓ)] at h
      by_cases hb : l.broken
      · rw [List.filter_cons_of_neg (by simp [hb])]
        exact ih h
      · rw [List.filter_cons_of_pos (by simp [hb]), List.map_cons,
          List.find?_cons_of_neg _ (by simpa using hℓ)]
        exact ih h

theorem find?_some_ne_nil (ls : List Listener) (p : Listener → Bool)
    (x : Listener) (h : ls.find? p = some x) : ls.isEmpty = false := by
  cases ls with
  | nil => simp [List.find?] at h
  | cons a rest => rfl

theorem unregister_getSession_ne (st : ServerState) (s' : SessionId)
    (lid : Nat) (s : SessionId) (h : s ≠ s') :
    getSession (unregister_session_listener st s' lid).session_event_queues s =
      getSession st.session_event_queues s := by
  cases hget : getSession st.session_event_queues s' with
  | none => simp [unregister_session_listener, hget]
  | some ls =>
    by_cases hempty : ls.isEmpty
    · simp [unregister_session_listener, hget, hempty]
    · by_cases hrem : (removeFirstLid ls lid).isEmpty
      · simp only [unregister_session_listener, hget, hempty, hrem,
          Bool.false_eq_true, if_false, if_pos]
        exact getSession_delSession_ne s' s h st.session_event_queues
      · simp only [unregister_session_listener, hget, hempty, hrem,
          Bool.false_eq_true, if_false]
        exact getSession_setSession_ne _ _ _ _ h

theorem unregister_keys (st : ServerState) (s' : SessionId) (lid : Nat)
    (h : keysNodup st) :
    keysNodup (unregister_session_listener st s' lid) := by
  cases hget : getSession st.session_event_queues s' with
  | none => simpa [unregister_session_listener, hget] using h
  | some ls =>
    by_cases hempty : ls.isEmpty
    · simpa [unregister_session_listener, hget, hempty] using h
    · by_cases hrem : (removeFirstLid ls lid).isEmpty
      · simp only [unregister_session_listener, hget, hempty, hrem,
          Bool.false_eq_true, if_false, if_pos]
        exact ((delSession_sublist s' st.session_event_queues).map Prod.fst).nodup h
      · simp only [unregister_session_listener, hget, hempty, hrem,
          Bool.false_eq_true, if_false]
        exact keysNodup_setSession _ _ _ h

theorem unregister_nextId (st : ServerState) (s' : SessionId) (lid : Nat) :
    (unregister_session_listener st s' lid).nextId = st.nextId := by
  cases hget : getSession st.session_event_queues s' with
  | none => simp [unregister_session_listener, hget]
  | some ls =>
    by_cases hempty : ls.isEmpty
    · simp [unregister_session_listener, hget, hempty]
    · by_cases hrem : (removeFirstLid ls lid).isEmpty
      · simp [unregister_session_listener, hget, hempty, hrem]
      · simp [unregister_session_listener, hget, hempty, hrem]

theorem publish_getSession_ne (st : ServerState) (s' : SessionId)
    (event_type : String) (payload : JValue) (s : SessionId) (h : s ≠ s') :
    getSession (publish_event st (some s') event_type payload).session_event_queues s =
      getSession st.session_event_queues s := by
  by_cases hs' : s' = ""
  · simp [publish_event, hs']
  · cases hget : getSession st.session_event_queues s' with
    | none => rw [publish_event_absent st s' event_type payload hget]
    | some ls =>
      simp only [publish_event, hs', if_neg, hget]
      exact getSession_setSession_ne _ _ _ _ h

theorem publish_keys (st : ServerState) (sid : Option SessionId)
    (event_type : String) (payload : JValue) (h : keysNodup st) :
    keysNodup (publish_event st sid event_type payload) := by
  cases sid with
  | none => exact h
  | some s' =>
    by_cases hs' : s' = ""
    · simpa [publish_event, hs'] using h
    · cases hget : getSession st.session_event_queues s' with
      | none => rw [publish_event_absent st s' event_type payload hget]; exact h
      | some ls =>
        simp only [publish_event, hs', if_neg, hget]
        exact keysNodup_setSession _ _ _ h

theorem publish_nextId (st : ServerState) (sid : Option SessionId)
    (event_type : String) (payload : JValue) :
    (publish_event st sid event_type payload).nextId = st.nextId := by
  cases sid with
  | none => rfl
  | some s' =>
    by_cases hs' : s' = ""
    · simp [publish_event, hs']
    · cases hget : getSession st.session_event_queues s' with
      | none => rw [publish_event_absent st s' event_type payload hget]
      | some ls => simp [publish_event, hs', hget]

theorem applyOp_step (st : ServerState) (s : SessionId) (ℓ : Nat)
    (q : List Event) (op : Op)
    (hwf : traceWF st s) (hs : s ≠ "")
    (hfind : findListener st s ℓ =
      some { lid := ℓ, queue := q, broken := false })
    (hop : op ≠ Op.unregister s ℓ) :
    traceWF (applyOp st op) s ∧
    findListener (applyOp st op) s ℓ =
      some { lid := ℓ, queue := q ++ eventsFor s [op], broken := false } := by
  obtain ⟨hkeys, hnodup, hbound⟩ := hwf
  cases hget0 : getSession st.session_event_queues s with
  | none => simp [findListener, hget0] at hfind
  | some ls₀ =>
    have hfind0 : ls₀.find? (fun l => l.lid = ℓ) =
        some { lid := ℓ, queue := q, broken := false } := by
      simpa [findListener, hget0] using hfind
    have hlsOf : listenersOf st s = ls₀ := by simp [listenersOf, hget0]
    have hnodup0 : (ls₀.map Listener.lid).Nodup := by rwa [hlsOf] at hnodup
    have hbound0 : ∀ l ∈ ls₀, l.lid < st.nextId := by rwa [hlsOf] at hbound
    cases op with
    | register s' =>
      simp only [applyOp]
      have hkeys1 : keysNodup (register_session_listener st s').1 :=
        keysNodup_setSession _ _ _ hkeys
      have hnext1 : (register_session_listener st s').1.nextId =
          st.nextId + 1 := rfl
      by_cases hss : s' = s
      · subst hss
        have hget1 : getSession
            (register_session_listener st s').1.session_event_queues s' =
            some (ls₀ ++ [{ lid := st.nextId, queue := [], broken := false }]) := by
          have : (register_session_listener st s').1.session_event_queues =
              setSession st.session_event_queues s'
                (((getSession st.session_event_queues s').getD []) ++
                  [{ lid := st.nextId, queue := [], broken := false }]) := rfl
          rw [this, hget0]
          exact getSession_setSession_self _ _ _
        refine ⟨⟨hkeys1, ?_, ?_⟩, ?_⟩
        · rw [listenersOf, hget1]
          simp only [Option.getD_some, List.map_append, List.map_cons,
            List.map_nil]
          rw [List.nodup_append]
          refine ⟨hnodup0, by simp, fun a ha hb => ?_⟩
          simp only [List.mem_singleton] at hb
          subst hb
          rcases List.mem_map.mp ha with ⟨l, hl, hla⟩
          have := hbound0 l hl
          omega
        · rw [listenersOf, hget1]
          intro l hl
          simp only [Option.getD_some, List.mem_append,
            List.mem_singleton] at hl
          rw [hnext1]
          rcases hl with hl | hl
          · exact Nat.lt_succ_of_lt (hbound0 l hl)
          · subst hl
            exact Nat.lt_succ_self _
        · rw [findListener, hget1]
          simp only [eventsFor, List.append_nil]
          exact find?_append_left _ _ _ ls₀ hfind0
      · have hgetne : getSession
            (register_session_listener st s').1.session_event_queues s =
            getSession st.session_event_queues s := by
          have : (register_session_listener st s').1.session_event_queues =
              setSession st.session_event_queues s'
                (((getSession st.session_event_queues s').getD []) ++
                  [{ lid := st.nextId, queue := [], broken := false }]) := rfl
          rw [this]
          exact getSession_setSession_ne _ _ _ _ (fun h => hss h.symm)
        refine ⟨⟨hkeys1, ?_, ?_⟩, ?_⟩
        · rw [listenersOf, hgetne, hget0]
          simpa using hnodup0
        · rw [listenersOf, hgetne, hget0]
          intro l hl
          simp only [Option.getD_some] at hl
          rw [hnext1]
          exact Nat.lt_succ_of_lt (hbound0 l hl)
        · rw [findListener, hgetne, hget0]
          simpa [eventsFor] using hfind0
    | unregister s' lid' =>
      simp only [applyOp]
      have hkeys1 : keysNodup (unregister_session_listener st s' lid') :=
        unregister_keys st s' lid' hkeys
      have hnext1 : (unregister_session_listener st s' lid').nextId =
          st.nextId := unregister_nextId st s' lid'
      by_cases hss : s' = s
      · subst hss
        have hne : lid' ≠ ℓ := by
          intro hcontra
          exact hop (by rw [hcontra])
        have hfind1 : (removeFirstLid ls₀ lid').find? (fun l => l.lid = ℓ) =
            some { lid := ℓ, queue := q, broken := false } := by
          rw [find?_removeFirstLid_ne lid' ℓ hne ls₀]
          exact hfind0
        have hrem : (removeFirstLid ls₀ lid').isEmpty = false :=
          find?_some_ne_nil _ _ _ hfind1
        have hempty : ls₀.isEmpty = false := find?_some_ne_nil _ _ _ hfind0
        have happ : unregister_session_listener st s' lid' =
            { st with session_event_queues := (setSession
                st.session_event_queues s' (removeFirstLid ls₀ lid')) } := by
          simp [unregister_session_listener, hget0, hempty, hrem]
        rw [happ]
        have hget1 : getSession (setSession st.session_event_queues s'
            (removeFirstLid ls₀ lid')) s' = some (removeFirstLid ls₀ lid') :=
          getSession_setSession_self _ _ _
        refine ⟨⟨?_, ?_, ?_⟩, ?_⟩
        · exact keysNodup_setSession _ _ _ hkeys
        · rw [listenersOf]
          simp only [hget1, Option.getD_some]
          exact ((removeFirstLid_sublist lid' ls₀).map Listener.lid).nodup
            hnodup0
        · rw [listenersOf]
          simp only [hget1, Option.getD_some]
          intro l hl
          exact hbound0 l ((removeFirstLid_sublist lid' ls₀).subset hl)
        · rw [findListener]
          simp only [hget1]
          simpa [eventsFor] using hfind1
      · have hgetne : getSession
            (unregister_session_listener st s' lid').session_event_queues s =
            getSession st.session_event_queues s :=
          unregister_getSession_ne st s' lid' s (fun h => hss h.symm)
        refine ⟨⟨hkeys1, ?_, ?_⟩, ?_⟩
        · rw [listenersOf, hgetne, hget0]
          simpa using hnodup0
        · rw [listenersOf, hgetne, hget0]
          intro l hl
          simp only [Option.getD_some] at hl
          rw [hnext1]
          exact hbound0 l hl
        · rw [findListener, hgetne, hget0]
          simpa [eventsFor] using hfind0
    | publish sid t p =>
      cases sid with
      | none =>
        refine ⟨⟨hkeys, ?_, ?_⟩, ?_⟩
        · simpa [applyOp, publish_event] using hnodup
        · simpa [applyOp, publish_event] using hbound
        · simpa [applyOp, publish_event, findListener, hget0, eventsFor]
            using hfind0
      | some s' =>
        simp only [applyOp]
        have hkeys1 : keysNodup (publish_event st (some s') t p) :=
          publish_keys st (some s') t p hkeys
        have hnext1 : (publish_event st (some s') t p).nextId = st.nextId :=
          publish_nextId st (some s') t p
        by_cases hss : s' = s
        · subst hss
          have happ : publish_event st (some s') t p =
              { st with session_event_queues := (setSession
                  st.session_event_queues s'
                  (publishLoop ls₀ ls₀ { type := t, data := p })) } := by
            simp [publish_event, hs, hget0]
          rw [happ]
          have hget1 : getSession (setSession st.session_event_queues s'
              (publishLoop ls₀ ls₀ { type := t, data := p })) s' =
              some (publishLoop ls₀ ls₀ { type := t, data := p }) :=
            getSession_setSession_self _ _ _
          have hloop := publishLoop_spec ls₀ { type := t, data := p } hnodup0
          have hev : eventsFor s' [Op.publish (some s') t p] =
              [{ type := t, data := p }] := by
            simp [eventsFor]
          refine ⟨⟨?_, ?_, ?_⟩, ?_⟩
          · exact keysNodup_setSession _ _ _ hkeys
          · rw [listenersOf, hget1]
            simp only [Option.getD_some]
            rw [hloop]
            have hmap : (((ls₀.filter (fun l => !l.broken)).map
                (fun l => { l with queue :=
                  l.queue ++ [{ type := t, data := p }] })).map Listener.lid) =
                ((ls₀.filter (fun l => !l.broken)).map Listener.lid) := by
              rw [List.map_map]
              rfl
            rw [hmap]
            exact ((List.filter_sublist ls₀).map Listener.lid).nodup hnodup0
          · rw [listenersOf, hget1]
            simp only [Option.getD_some]
            rw [hloop]
            intro l hl
            rcases List.mem_map.mp hl with ⟨l', hl', rfl⟩
            have hl'' : l' ∈ ls₀ := (List.filter_sublist ls₀).subset hl'
            exact hbound0 l' hl''
          · rw [findListener, hget1]
            rw [hloop, hev]
            exact find?_publish ℓ q { type := t, data := p } ls₀ hfind0
        · have hgetne : getSession
              (publish_event st (some s') t p).session_event_queues s =
              getSession st.session_event_queues s :=
            publish_getSession_ne st s' t p s (fun h => hss h.symm)
          refine ⟨⟨hkeys1, ?_, ?_⟩, ?_⟩
          · rw [listenersOf, hgetne, hget0]
            simpa using hnodup0
          · rw [listenersOf, hgetne, hget0]
            intro l hl
            simp only [Option.getD_some] at hl
            rw [hnext1]
            exact hbound0 l hl
          · rw [findListener, hgetne, hget0]
            simpa [eventsFor, hss] using hfind0

theorem eventsFor_cons (s : SessionId) (op : Op) (ops : List Op) :
    eventsFor s (op :: ops) = eventsFor s [op] ++ eventsFor s ops := by
  cases op with
  | register s' => simp [eventsFor]
  | unregister s' lid => simp [eventsFor]
  | publish sid t p =>
    cases sid with
    | none => simp [eventsFor]
    | some s' =>
      by_cases hss : s' = s
      · simp [eventsFor, hss]
      · simp [eventsFor, hss]

/-- C3: FIFO fan-out per listener — for every well-formed state, every
listener registered for session `s` with a usable queue, and every trace of
registry operations that never unregisters that listener, the listener's
queue after the trace is its prior contents followed exactly by the events
of the publishes made to `s` during the trace, in publish order; a listener
of a different session accumulates exactly the publishes to its own session
(so it observes nothing from publishes to other sessions). -/
theorem c3_fifo_fanout (ops : List Op) :
    ∀ (st : ServerState) (s : SessionId) (ℓ : Nat) (q : List Event),
      traceWF st s → s ≠ "" →
      findListener st s ℓ = some { lid := ℓ, queue := q, broken := false } →
      Op.unregister s ℓ ∉ ops →
      findListener (runOps st ops) s ℓ =
        some { lid := ℓ, queue := q ++ eventsFor s ops, broken := false } := by
  induction ops with
  | nil =>
    intro st s ℓ q hwf hs hfind hnotin
    simpa [runOps, eventsFor] using hfind
  | cons op ops ih =>
    intro st s ℓ q hwf hs hfind hnotin
    have hop : op ≠ Op.unregister s ℓ :=
      fun h => hnotin (h ▸ List.mem_cons_self _ _)
    obtain ⟨hwf', hfind'⟩ := applyOp_step st s ℓ q op hwf hs hfind hop
    have hnotin' : Op.unregister s ℓ ∉ ops :=
      fun h => hnotin (List.mem_cons_of_mem _ h)
    have hrest := ih (applyOp st op) s ℓ (q ++ eventsFor s [op]) hwf' hs
      hfind' hnotin'
    simp only [runOps]
    rw [eventsFor_cons s op ops, ← List.append_assoc]
    exact hrest

/-- Concrete instance of the publish drop semantics: a session with three
listeners of which the middle one is broken. -/
theorem c1_publish_drop_semantics_witness :
    (("s1" : SessionId) ≠ "" ∧
      ((listenersOf { session_event_queues :=
          [("s1", [⟨0, [], false⟩, ⟨1, [], true⟩, ⟨2, [], false⟩]),
           ("s2", [⟨3, [], false⟩])], nextId := 4 } "s1").map
        Listener.lid).Nodup) ∧
    (listenersOf (publish_event { session_event_queues :=
          [("s1", [⟨0, [], false⟩, ⟨1, [], true⟩, ⟨2, [], false⟩]),
           ("s2", [⟨3, [], false⟩])], nextId := 4 }
        (some "s1") "tool_call" (JValue.obj [])) "s1" =
      ((listenersOf { session_event_queues :=
          [("s1", [⟨0, [], false⟩, ⟨1, [], true⟩, ⟨2, [], false⟩]),
           ("s2", [⟨3, [], false⟩])], nextId := 4 } "s1").filter
        (fun l => !l.broken)).map
        (fun l => { l with queue :=
          l.queue ++ [{ type := "tool_call", data := JValue.obj [] }] }) ∧
    (∀ s', s' ≠ "s1" →
      getSession (publish_event { session_event_queues :=
          [("s1", [⟨0, [], false⟩, ⟨1, [], true⟩, ⟨2, [], false⟩]),
           ("s2", [⟨3, [], false⟩])], nextId := 4 }
        (some "s1") "tool_call" (JValue.obj [])).session_event_queues s' =
        getSession ({ session_event_queues :=
          [("s1", [⟨0, [], false⟩, ⟨1, [], true⟩, ⟨2, [], false⟩]),
           ("s2", [⟨3, [], false⟩])], nextId := 4 } :
            ServerState).session_event_queues s') ∧
    (publish_event { session_event_queues :=
          [("s1", [⟨0, [], false⟩, ⟨1, [], true⟩, ⟨2, [], false⟩]),
           ("s2", [⟨3, [], false⟩])], nextId := 4 }
        (some "s1") "tool_call" (JValue.obj [])).nextId =
      ({ session_event_queues :=
          [("s1", [⟨0, [], false⟩, ⟨1, [], true⟩, ⟨2, [], false⟩]),
           ("s2", [⟨3, [], false⟩])], nextId := 4 } : ServerState).nextId) :=
  ⟨⟨by decide, by decide⟩,
    c1_publish_drop_semantics
      { session_event_queues :=
          [("s1", [⟨0, [], false⟩, ⟨1, [], true⟩, ⟨2, [], false⟩]),
           ("s2", [⟨3, [], false⟩])], nextId := 4 }
      "s1" "tool_call" (JValue.obj []) (by decide) (by decide)⟩

/-- Concrete instance of the amended registry invariant preservation. -/
theorem c2_amended_invariant_witness :
    registryInvariant { session_event_queues := [("s1", [⟨0, [], false⟩])], nextId := 1 } ∧
    ((∀ s, registryInvariant (register_session_listener { session_event_queues := [("s1", [⟨0, [], false⟩])], nextId := 1 } s).1) ∧
    (∀ s lid, registryInvariant (unregister_session_listener { session_event_queues := [("s1", [⟨0, [], false⟩])], nextId := 1 } s lid)) ∧
    (∀ s event_type payload,
      (∀ ls, getSession ({ session_event_queues := [("s1", [⟨0, [], false⟩])], nextId := 1 } : ServerState).session_event_queues s = some ls →
        ((ls.map Listener.lid).Nodup ∧ ∃ l ∈ ls, l.broken = false)) →
      registryInvariant (publish_event { session_event_queues := [("s1", [⟨0, [], false⟩])], nextId := 1 } (some s) event_type payload))) :=
  ⟨by decide,
    c2_amended_invariant { session_event_queues := [("s1", [⟨0, [], false⟩])], nextId := 1 } (by decide)⟩

/-- Concrete instance of FIFO fan-out: two listeners registered for session
S and one for session T; one publish to S reaches both S listeners in order
and leaves the T listener with no events. -/
theorem c3_fifo_fanout_witness :
    (traceWF { session_event_queues := [("S", [⟨0, [], false⟩, ⟨1, [], false⟩]), ("T", [⟨2, [], false⟩])], nextId := 3 } "S" ∧
      Op.unregister "S" 0 ∉ [Op.publish (some "S") "tool_call" (JValue.obj [])]) ∧
    findListener (runOps { session_event_queues := [("S", [⟨0, [], false⟩, ⟨1, [], false⟩]), ("T", [⟨2, [], false⟩])], nextId := 3 } [Op.publish (some "S") "tool_call" (JValue.obj [])]) "S" 0 =
      some { lid := 0, queue := [{ type := "tool_call", data := JValue.obj [] }], broken := false } ∧
    findListener (runOps { session_event_queues := [("S", [⟨0, [], false⟩, ⟨1, [], false⟩]), ("T", [⟨2, [], false⟩])], nextId := 3 } [Op.publish (some "S") "tool_call" (JValue.obj [])]) "S" 1 =
      some { lid := 1, queue := [{ type := "tool_call", data := JValue.obj [] }], broken := false } ∧
    findListener (runOps { session_event_queues := [("S", [⟨0, [], false⟩, ⟨1, [], false⟩]), ("T", [⟨2, [], false⟩])], nextId := 3 } [Op.publish (some "S") "tool_call" (JValue.obj [])]) "T" 2 =
      some { lid := 2, queue := [], broken := false } :=
  ⟨⟨by decide, by simp⟩,
    c3_fifo_fanout [Op.publish (some "S") "tool_call" (JValue.obj [])]
      { session_event_queues := [("S", [⟨0, [], false⟩, ⟨1, [], false⟩]), ("T", [⟨2, [], false⟩])], nextId := 3 }
      "S" 0 [] (by decide) (by decide) rfl (by simp),
    c3_fifo_fanout [Op.publish (some "S") "tool_call" (JValue.obj [])]
      { session_event_queues := [("S", [⟨0, [], false⟩, ⟨1, [], false⟩]), ("T", [⟨2, [], false⟩])], nextId := 3 }
      "S" 1 [] (by decide) (by decide) rfl (by simp),
    c3_fifo_fanout [Op.publish (some "S") "tool_call" (JValue.obj [])]
      { session_event_queues := [("S", [⟨0, [], false⟩, ⟨1, [], false⟩]), ("T", [⟨2, [], false⟩])], nextId := 3 }
      "T" 2 [] (by decide) (by decide) rfl (by simp)⟩

/-- Concrete instance of cleanup-on-empty: one listener for session S. -/
theorem c4_cleanup_on_empty_witness :
    getSession ({ session_event_queues := [("S", [⟨0, [], false⟩])], nextId := 1 } : ServerState).session_event_queues "S" = some [⟨0, [], false⟩] ∧
    (getSession (unregister_session_listener { session_event_queues := [("S", [⟨0, [], false⟩])], nextId := 1 } "S" (⟨0, [], false⟩ : Listener).lid).session_event_queues "S" = none ∧
    publish_event (unregister_session_listener { session_event_queues := [("S", [⟨0, [], false⟩])], nextId := 1 } "S" (⟨0, [], false⟩ : Listener).lid) (some "S") "final" (JValue.obj []) =
      unregister_session_listener { session_event_queues := [("S", [⟨0, [], false⟩])], nextId := 1 } "S" (⟨0, [], false⟩ : Listener).lid) :=
  ⟨rfl,
    c4_cleanup_on_empty { session_event_queues := [("S", [⟨0, [], false⟩])], nextId := 1 }
      "S" ⟨0, [], false⟩ "final" (JValue.obj []) rfl⟩

/-- Concrete instance of idempotent unregister with a second listener that
must stay untouched. -/
theorem c5_unregister_idempotent_witness :
    (keysNodup { session_event_queues := [("S", [⟨0, [], false⟩, ⟨1, [], false⟩])], nextId := 2 } ∧
      ((listenersOf { session_event_queues := [("S", [⟨0, [], false⟩, ⟨1, [], false⟩])], nextId := 2 } "S").map Listener.lid).Nodup) ∧
    unregister_session_listener (unregister_session_listener { session_event_queues := [("S", [⟨0, [], false⟩, ⟨1, [], false⟩])], nextId := 2 } "S" 0) "S" 0 =
      unregister_session_listener { session_event_queues := [("S", [⟨0, [], false⟩, ⟨1, [], false⟩])], nextId := 2 } "S" 0 :=
  ⟨⟨by decide, by decide⟩,
    c5_unregister_idempotent { session_event_queues := [("S", [⟨0, [], false⟩, ⟨1, [], false⟩])], nextId := 2 }
      "S" 0 (by decide) (by decide)⟩

/-- Concrete instance of ambient-context capture and restoration, with a
runner that succeeds. -/
theorem c6_ambient_context_restored_witness :
    (chat (fun _ _ srv => (srv, Except.ok (some "hi")) : AgentRunner Unit)
        { server := initialState, ctx := none } "S" "msg").1.ctx =
      ({ server := initialState, ctx := none } : ChatState).ctx ∧
    chat (fun _ _ srv => (srv, Except.ok (some "hi")) : AgentRunner Unit)
        { server := initialState, ctx := none } "S" "msg" =
      chat (fun _ _ srv => (srv, Except.ok (some "hi")) : AgentRunner Unit)
        { server := initialState, ctx := none } "S" "msg" :=
  ⟨(c6_ambient_context_restored
      (fun _ _ srv => (srv, Except.ok (some "hi")) : AgentRunner Unit)
      { server := initialState, ctx := none } "S" "msg").1,
    (c6_ambient_context_restored
      (fun _ _ srv => (srv, Except.ok (some "hi")) : AgentRunner Unit)
      { server := initialState, ctx := none } "S" "msg").2
      (fun _ _ srv => (srv, Except.ok (some "hi"))) rfl⟩

/-- Concrete instance of the failing-agent exit path of the chat handler. -/
theorem c10_agent_failure_semantics_witness :
    ((fun _ _ srv => (srv, Except.error ()) : AgentRunner Unit) (some "S") "msg"
        (publish_event initialState (some "S") "typing_start" (JValue.obj []))).2 =
      Except.error () ∧
    chat (fun _ _ srv => (srv, Except.error ()) : AgentRunner Unit)
        { server := initialState, ctx := none } "S" "msg" =
      ({ server := ((fun _ _ srv => (srv, Except.error ()) : AgentRunner Unit) (some "S") "msg"
            (publish_event initialState (some "S") "typing_start" (JValue.obj []))).1,
         ctx := none }, Except.error ()) :=
  ⟨rfl,
    c10_agent_failure_semantics
      (fun _ _ srv => (srv, Except.error ()) : AgentRunner Unit)
      { server := initialState, ctx := none } "S" "msg" () rfl⟩
